import Mathlib

/-!
Verification of the path-resolver, traversal, filtering, pagination and
search-client logic of the magic-api toolkit.  Python strings are embedded
as `List Char`; dictionaries delivered by the backend are embedded as
structures whose optional fields are `Option (List Char)`.
-/

namespace MagicApi

/-- Test for the `'/'` character, as used by Python `path.strip('/')`. -/
def isSlash (c : Char) : Bool := c == '/'

/-- Python `path.strip('/')`: remove every leading and trailing `/`. -/
def strip_slashes (s : List Char) : List Char :=
  ((s.dropWhile isSlash).reverse.dropWhile isSlash).reverse

/-- One pass of Python `path.replace('//', '/')`: replace the
non-overlapping occurrences of `//` by `/`, scanning left to right. -/
def replace_double_slash : List Char → List Char
  | [] => []
  | [c] => [c]
  | a :: b :: rest =>
    if a = '/' ∧ b = '/' then '/' :: replace_double_slash rest
    else a :: replace_double_slash (b :: rest)

/-- Python `'//' in path`: does the string contain two adjacent slashes? -/
def has_double_slash : List Char → Bool
  | [] => false
  | [_] => false
  | a :: b :: rest => if a = '/' ∧ b = '/' then true else has_double_slash (b :: rest)

theorem replace_double_slash_length_le (s : List Char) :
    (replace_double_slash s).length ≤ s.length := by
  induction s using replace_double_slash.induct with
  | case1 => simp [replace_double_slash]
  | case2 c => simp [replace_double_slash]
  | case3 a b rest h ih =>
    simp only [replace_double_slash, if_pos h, List.length_cons]
    simp only [List.length_cons] at ih ⊢
    omega
  | case4 a b rest h ih =>
    simp only [replace_double_slash, if_neg h, List.length_cons]
    simp only [List.length_cons] at ih ⊢
    omega

theorem replace_double_slash_length_lt (s : List Char)
    (h : has_double_slash s = true) :
    (replace_double_slash s).length < s.length := by
  induction s using replace_double_slash.induct with
  | case1 => simp [has_double_slash] at h
  | case2 c => simp [has_double_slash] at h
  | case3 a b rest hab ih =>
    have := replace_double_slash_length_le rest
    simp only [replace_double_slash, if_pos hab, List.length_cons]
    omega
  | case4 a b rest hab ih =>
    simp only [has_double_slash, if_neg hab] at h
    have := ih h
    simp only [List.length_cons] at this
    simp only [replace_double_slash, if_neg hab, List.length_cons]
    omega

/-- The `while '//' in path: path = path.replace('//', '/')` loop shared by
`clean_path` and `normalize_path` in `extract_api_paths.py`. -/
def collapse_slashes (s : List Char) : List Char :=
  if h : has_double_slash s = true then
    collapse_slashes (replace_double_slash s)
  else s
termination_by s.length
decreasing_by exact replace_double_slash_length_lt s h

theorem collapse_slashes_no_double (s : List Char) :
    has_double_slash (collapse_slashes s) = false := by
  induction s using collapse_slashes.induct with
  | case1 s h ih => rw [collapse_slashes, dif_pos h]; exact ih
  | case2 s h => rw [collapse_slashes, dif_neg h]; simpa using h

theorem collapse_slashes_of_no_double (s : List Char)
    (h : has_double_slash s = false) : collapse_slashes s = s := by
  rw [collapse_slashes, dif_neg (by simp [h])]

theorem replace_double_slash_head? (s : List Char) :
    (replace_double_slash s).head? = s.head? := by
  induction s using replace_double_slash.induct with
  | case1 => rfl
  | case2 c => rfl
  | case3 a b rest hab ih =>
    rw [replace_double_slash, if_pos hab]
    simp [hab.1]
  | case4 a b rest hab ih =>
    rw [replace_double_slash, if_neg hab]
    simp

theorem replace_double_slash_ne_nil (s : List Char) (h : s ≠ []) :
    replace_double_slash s ≠ [] := by
  intro hnil
  have := replace_double_slash_head? s
  rw [hnil] at this
  cases s with
  | nil => exact h rfl
  | cons a t => simp at this

theorem getLast?_cons_of_ne_nil {α : Type} (a : α) (l : List α) (h : l ≠ []) :
    (a :: l).getLast? = l.getLast? := by
  cases l with
  | nil => exact absurd rfl h
  | cons b t => exact List.getLast?_cons_cons

theorem replace_double_slash_getLast? (s : List Char) :
    (replace_double_slash s).getLast? = s.getLast? := by
  induction s using replace_double_slash.induct with
  | case1 => rfl
  | case2 c => rfl
  | case3 a b rest hab ih =>
    rw [replace_double_slash, if_pos hab]
    cases rest with
    | nil => simp [replace_double_slash, hab.1, hab.2]
    | cons r rs =>
      rw [getLast?_cons_of_ne_nil _ _ (replace_double_slash_ne_nil _ (by simp)), ih,
        List.getLast?_cons_cons, List.getLast?_cons_cons]
  | case4 a b rest hab ih =>
    rw [replace_double_slash, if_neg hab,
      getLast?_cons_of_ne_nil _ _ (replace_double_slash_ne_nil _ (by simp)), ih,
      List.getLast?_cons_cons]

theorem collapse_slashes_head? (s : List Char) :
    (collapse_slashes s).head? = s.head? := by
  induction s using collapse_slashes.induct with
  | case1 s h ih =>
    rw [collapse_slashes, dif_pos h]
    rw [ih, replace_double_slash_head?]
  | case2 s h => rw [collapse_slashes, dif_neg h]

theorem collapse_slashes_getLast? (s : List Char) :
    (collapse_slashes s).getLast? = s.getLast? := by
  induction s using collapse_slashes.induct with
  | case1 s h ih =>
    rw [collapse_slashes, dif_pos h]
    rw [ih, replace_double_slash_getLast?]
  | case2 s h => rw [collapse_slashes, dif_neg h]

theorem head?_dropWhile_false {α : Type} (p : α → Bool) (l : List α) (a : α)
    (h : (l.dropWhile p).head? = some a) : p a = false := by
  have := List.head?_dropWhile_not p l
  rw [h] at this
  exact this

theorem getLast?_dropWhile_of_ne_nil {α : Type} (p : α → Bool) (l : List α)
    (h : l.dropWhile p ≠ []) : (l.dropWhile p).getLast? = l.getLast? := by
  induction l with
  | nil => simp at h
  | cons a t ih =>
    by_cases hp : p a
    · rw [List.dropWhile_cons_of_pos hp] at h ⊢
      have ht : t ≠ [] := by
        intro hnil
        rw [hnil] at h
        simp at h
      rw [ih h, getLast?_cons_of_ne_nil _ _ ht]
    · rw [List.dropWhile_cons_of_neg hp]

theorem strip_slashes_head? (s : List Char) (c : Char)
    (h : (strip_slashes s).head? = some c) : isSlash c = false := by
  unfold strip_slashes at h
  rw [List.head?_reverse] at h
  have hnn : (((s.dropWhile isSlash).reverse).dropWhile isSlash) ≠ [] := by
    intro hnil
    rw [hnil] at h
    simp at h
  rw [getLast?_dropWhile_of_ne_nil _ _ hnn, List.getLast?_reverse] at h
  exact head?_dropWhile_false _ _ _ h

theorem strip_slashes_getLast? (s : List Char) (c : Char)
    (h : (strip_slashes s).getLast? = some c) : isSlash c = false := by
  unfold strip_slashes at h
  rw [List.getLast?_reverse] at h
  exact head?_dropWhile_false _ _ _ h

theorem dropWhile_eq_self_of_head? {α : Type} (p : α → Bool) (l : List α)
    (h : ∀ a, l.head? = some a → p a = false) : l.dropWhile p = l := by
  cases l with
  | nil => rfl
  | cons a t =>
    have := h a rfl
    rw [List.dropWhile_cons_of_neg (by simp [this])]

theorem strip_slashes_of_no_edge (s : List Char)
    (h1 : ∀ c, s.head? = some c → isSlash c = false)
    (h2 : ∀ c, s.getLast? = some c → isSlash c = false) :
    strip_slashes s = s := by
  unfold strip_slashes
  rw [dropWhile_eq_self_of_head? _ _ h1]
  rw [dropWhile_eq_self_of_head? _ _ (by
    intro c hc
    rw [List.head?_reverse] at hc
    exact h2 c hc)]
  exact List.reverse_reverse s

/-- Function `clean_path` from `extract_api_paths.py`: `if not path: return ""`,
then strip leading/trailing `/` and collapse runs of `/`. -/
def clean_path (path : List Char) : List Char :=
  if path.isEmpty then [] else collapse_slashes (strip_slashes path)

/-- Function `normalize_path` from `extract_api_paths.py`; its body is
line-for-line the same as `clean_path`. -/
def normalize_path (path : List Char) : List Char :=
  if path.isEmpty then [] else collapse_slashes (strip_slashes path)

/-- The fields read from a node dictionary by the traversal functions:
`node.get('node', {}).get(...)` for `path`, `name`, `method`, `id`,
`groupId`.  The missing-key defaults (`''` for `path` and `name`) are
materialized; `method`, `id` and `groupId` are `none` when absent. -/
structure NodeInfo where
  path : List Char
  name : List Char
  method : Option (List Char)
  id : Option (List Char)
  groupId : Option (List Char)
deriving Repr, DecidableEq

/-- A node of the backend resource tree: its own `node` dictionary plus
the `children` list. -/
inductive ApiNode where
  | mk (info : NodeInfo) (children : List ApiNode)

/-- Python truthiness of an optional string field: `None` and `''` are
falsy, any other string is truthy. -/
def truthy : Option (List Char) → Bool
  | some s => !s.isEmpty
  | none => false

/-- The full-path construction shared by `traverse_api_tree` and
`find_api_by_path`: join parent and current segment with `/`, an empty
part being treated as absent. -/
def join_path (parent current : List Char) : List Char :=
  if !current.isEmpty && !parent.isEmpty then parent ++ '/' :: current
  else if !current.isEmpty then current
  else if !parent.isEmpty then parent
  else []

/-- The record appended by `find_api_by_path` for a matching endpoint. -/
structure MatchedNode where
  id : List Char
  path : List Char
  method : List Char
  name : List Char
  groupId : Option (List Char)
deriving Repr, DecidableEq

/-- The three-way path comparison of `find_api_by_path`: exact equality,
the target an ancestor of the node's full path, or the node's full path
an ancestor of the target. -/
def path_matches (nfp nt : List Char) : Bool :=
  nfp == nt || (nt ++ ['/']).isPrefixOf nfp || (nfp ++ ['/']).isPrefixOf nt

mutual

/-- Function `find_api_by_path` from `extract_api_paths.py`: pre-order traversal
collecting the endpoint nodes (truthy `method`, non-empty cleaned full
path, truthy `id`) whose normalized full path matches the normalized
target. -/
def find_api_by_path (t : ApiNode) (target_path parent_path : List Char) :
    List MatchedNode :=
  match t with
  | .mk info children =>
    let full_path := clean_path (join_path parent_path info.path)
    let here : List MatchedNode :=
      if truthy info.method && !full_path.isEmpty && truthy info.id then
        if path_matches (normalize_path full_path) (normalize_path target_path) then
          [⟨info.id.getD [], full_path, info.method.getD [], info.name, info.groupId⟩]
        else []
      else []
    here ++ find_api_by_path_list children target_path full_path

/-- The `for child in children: find_api_by_path(child, ...)` loop, with
the shared accumulator unfolded into list concatenation. -/
def find_api_by_path_list (ts : List ApiNode) (target_path parent_path : List Char) :
    List MatchedNode :=
  match ts with
  | [] => []
  | c :: cs =>
    find_api_by_path c target_path parent_path ++
      find_api_by_path_list cs target_path parent_path

end

mutual

/-- Function `traverse_api_tree` from `extract_api_paths.py`: pre-order traversal
producing one `"METHOD full_path"` or `"METHOD full_path [name]"` string
for every node with a truthy `method` and a non-empty cleaned full path. -/
def traverse_api_tree (t : ApiNode) (parent_path : List Char) :
    List (List Char) :=
  match t with
  | .mk info children =>
    let full_path := clean_path (join_path parent_path info.path)
    let here : List (List Char) :=
      if truthy info.method && !full_path.isEmpty then
        if !info.name.isEmpty && info.name ≠ info.path then
          [info.method.getD [] ++ ' ' :: full_path ++ ' ' :: '[' :: (info.name ++ [']'])]
        else
          [info.method.getD [] ++ ' ' :: full_path]
      else []
    here ++ traverse_api_tree_list children full_path

/-- The `for child in children: traverse_api_tree(child, ...)` loop. -/
def traverse_api_tree_list (ts : List ApiNode) (parent_path : List Char) :
    List (List Char) :=
  match ts with
  | [] => []
  | c :: cs => traverse_api_tree c parent_path ++ traverse_api_tree_list cs parent_path

end

mutual

/-- Pre-order listing of every node of a tree, paired with the cleaned
full path computed for it exactly as the traversal functions compute it. -/
def all_nodes (t : ApiNode) (parent_path : List Char) :
    List (NodeInfo × List Char) :=
  match t with
  | .mk info children =>
    let full_path := clean_path (join_path parent_path info.path)
    (info, full_path) :: all_nodes_list children full_path

/-- Function `all_nodes` over a list of sibling trees. -/
def all_nodes_list (ts : List ApiNode) (parent_path : List Char) :
    List (NodeInfo × List Char) :=
  match ts with
  | [] => []
  | c :: cs => all_nodes c parent_path ++ all_nodes_list cs parent_path

end

/-- Python string comparison `a <= b`: lexicographic by code point,
a proper initial segment comparing as smaller. -/
def str_le : List Char → List Char → Bool
  | [], _ => true
  | _ :: _, [] => false
  | a :: xs, b :: ys => if a < b then true else if b < a then false else str_le xs ys

/-- Function `extract_api_endpoints` from `extract_api_paths.py`, applied to the
`data.api.children` list of the decoded response: every child is
traversed with an empty parent path into one shared result list, which is
then sorted by Python `sorted` — a stable ascending sort, embedded as the
stable `List.mergeSort`. -/
def extract_api_endpoints (api_children : List ApiNode) : List (List Char) :=
  List.mergeSort (traverse_api_tree_list api_children []) str_le

/-- Function `find_api_id_by_path` from `extract_api_paths.py`, applied to the
`data.api.children` list: `find_api_by_path` over every child with an
empty parent path, into one shared result list. -/
def find_api_id_by_path (api_children : List ApiNode) (target_path : List Char) :
    List MatchedNode :=
  find_api_by_path_list api_children target_path []

/-- The endpoint-and-match test that `find_api_by_path` applies to a node
paired with its computed full path: truthy `method`, non-empty full path,
truthy `id`, and the three-way path comparison against the target. -/
def matches_target (target : List Char) (e : NodeInfo × List Char) : Bool :=
  (truthy e.1.method && !e.2.isEmpty && truthy e.1.id) &&
    path_matches (normalize_path e.2) (normalize_path target)

/-- The matched-node record `find_api_by_path` builds from a node and its
computed full path. -/
def to_matched (e : NodeInfo × List Char) : MatchedNode :=
  ⟨e.1.id.getD [], e.2, e.1.method.getD [], e.1.name, e.1.groupId⟩

/-- The filter field whose regular expression failed to compile; this
stands for the error message printed by `filter_endpoints` before it
returns `[]`. -/
inductive FilterField where
  | query
  | path
  | name
deriving Repr, DecidableEq

/-- Python `ep.split(' ', 1)[1]`: the text after the first space. -/
def after_first_space : List Char → List Char
  | [] => []
  | c :: rest => if c = ' ' then rest else after_first_space rest

/-- Python `'[' in ep and ']' in ep`. -/
def has_brackets (ep : List Char) : Bool := ep.contains '[' && ep.contains ']'

/-- Python `str.upper()` on an HTTP method name. -/
def py_upper (s : List Char) : List Char := s.map Char.toUpper

/-- The name-filter stage of `filter_endpoints`
(`'[' in ep and ']' in ep and name_pattern.search(ep)`); on `re.error`
the whole operation returns `[]` and reports the `name` field. -/
def name_filter_stage {ρ : Type} (compile : List Char → Option ρ)
    (search : ρ → List Char → Bool) (name_filter : Option (List Char))
    (filtered : List (List Char)) : List (List Char) × Option FilterField :=
  match name_filter with
  | none => (filtered, none)
  | some n =>
    match compile n with
    | none => ([], some FilterField.name)
    | some np =>
      (filtered.filter (fun ep => has_brackets ep && search np ep), none)

/-- The path-filter stage of `filter_endpoints`
(`path_pattern.search(ep.split(' ', 1)[1])`); on `re.error` the whole
operation returns `[]` and reports the `path` field. -/
def path_filter_stage {ρ : Type} (compile : List Char → Option ρ)
    (search : ρ → List Char → Bool) (path_filter name_filter : Option (List Char))
    (filtered : List (List Char)) : List (List Char) × Option FilterField :=
  match path_filter with
  | none => name_filter_stage compile search name_filter filtered
  | some p =>
    match compile p with
    | none => ([], some FilterField.path)
    | some pp =>
      name_filter_stage compile search name_filter
        (filtered.filter (fun ep => search pp (after_first_space ep)))

/-- The query-filter stage of `filter_endpoints`
(`query_pattern.search(ep.split(' ', 1)[1]) or (query_pattern.search(ep)
if '[' in ep and ']' in ep else False)`); on `re.error` the whole
operation returns `[]` and reports the `query` field. -/
def query_filter_stage {ρ : Type} (compile : List Char → Option ρ)
    (search : ρ → List Char → Bool)
    (query_filter path_filter name_filter : Option (List Char))
    (filtered : List (List Char)) : List (List Char) × Option FilterField :=
  match query_filter with
  | none => path_filter_stage compile search path_filter name_filter filtered
  | some q =>
    match compile q with
    | none => ([], some FilterField.query)
    | some qp =>
      path_filter_stage compile search path_filter name_filter
        (filtered.filter (fun ep =>
          search qp (after_first_space ep) || (has_brackets ep && search qp ep)))

/-- Function `filter_endpoints` from `extract_api_paths.py`.  Python's `re` module
is abstracted into a compile function over a pattern type `ρ` (returning
`none` exactly when the pattern is malformed, i.e. `re.compile` raises
`re.error`) and a compiled-pattern search predicate.  The second
component of the result records the filter field whose pattern failed to
compile (Python prints an error message naming it and returns `[]`);
`none` means no filter error occurred. -/
def filter_endpoints {ρ : Type} (compile : List Char → Option ρ)
    (search : ρ → List Char → Bool) (endpoints : List (List Char))
    (path_filter name_filter method_filter query_filter : Option (List Char)) :
    List (List Char) × Option FilterField :=
  let after_method :=
    match method_filter with
    | some m => endpoints.filter (fun ep => (py_upper m ++ [' ']).isPrefixOf ep)
    | none => endpoints
  query_filter_stage compile search query_filter path_filter name_filter after_method

/-- Formula `total_pages = (total_items + page_size - 1) // page_size` from
`MagicAPIClassExplorer._paginate_items`. -/
def py_total_pages (total_items page_size : Nat) : Nat :=
  (total_items + page_size - 1) / page_size

/-- Method `MagicAPIClassExplorer._paginate_items` from
`extract_class_methods.py`: returns `(window, total_pages, total_items)`;
a page beyond `total_pages` yields an empty window, otherwise the window
is the slice `items[start_index:end_index]`. -/
def paginate_items {α : Type} (items : List α) (page page_size : Nat) :
    List α × Nat × Nat :=
  let total_items := items.length
  let total_pages := py_total_pages total_items page_size
  if page > total_pages then ([], total_pages, total_items)
  else
    let start_index := (page - 1) * page_size
    let end_index := min (start_index + page_size) total_items
    ((items.drop start_index).take (end_index - start_index), total_pages, total_items)

/-- Outcome of the one HTTP exchange performed by a search-client call:
either a decoded `{code, data}` envelope (the request returned and
`raise_for_status` passed), or a raised `requests.RequestException`. -/
inductive Transport (α : Type) where
  | ok (code : Option Int) (data : List α)
  | exc

/-- The whitespace set of Python `str.strip()`. -/
def is_py_space (c : Char) : Bool :=
  c == ' ' || c == '\t' || c == '\n' || c == '\r' || c == '\x0b' || c == '\x0c'

/-- Python `keyword.strip()`. -/
def py_strip (s : List Char) : List Char :=
  ((s.dropWhile is_py_space).reverse.dropWhile is_py_space).reverse

/-- Method `MagicAPISearchClient.search` from `search_manager.py`: an empty (or
all-whitespace) keyword short-circuits to `[]` without issuing a request;
a transport exception yields `[]`; an envelope with `code == 1` yields
`data[:limit]` when `limit > 0` and all of `data` otherwise; any other
envelope yields `[]`. -/
def search {α : Type} (keyword : List Char) (limit : Int) (t : Transport α) :
    List α :=
  if (py_strip keyword).isEmpty then []
  else
    match t with
    | .exc => []
    | .ok code data =>
      if code = some 1 then
        if limit > 0 then data.take limit.toNat else data
      else []

/-- Method `MagicAPISearchClient.search_todo` from `search_manager.py`: the same
response handling as `search`, with no keyword argument. -/
def search_todo {α : Type} (limit : Int) (t : Transport α) : List α :=
  match t with
  | .exc => []
  | .ok code data =>
    if code = some 1 then
      if limit > 0 then data.take limit.toNat else data
    else []

theorem normalize_path_no_double (p : List Char) :
    has_double_slash (normalize_path p) = false := by
  unfold normalize_path
  split
  · rfl
  · exact collapse_slashes_no_double _

theorem normalize_path_head? (p : List Char) (c : Char)
    (h : (normalize_path p).head? = some c) : isSlash c = false := by
  unfold normalize_path at h
  split at h
  · simp at h
  · rw [collapse_slashes_head?] at h
    exact strip_slashes_head? _ _ h

theorem normalize_path_getLast? (p : List Char) (c : Char)
    (h : (normalize_path p).getLast? = some c) : isSlash c = false := by
  unfold normalize_path at h
  split at h
  · simp at h
  · rw [collapse_slashes_getLast?] at h
    exact strip_slashes_getLast? _ _ h

theorem normalize_path_of_normal (s : List Char)
    (h0 : has_double_slash s = false)
    (h1 : ∀ c, s.head? = some c → isSlash c = false)
    (h2 : ∀ c, s.getLast? = some c → isSlash c = false) :
    normalize_path s = s := by
  unfold normalize_path
  split
  · rename_i he
    exact (List.isEmpty_iff.mp he).symm
  · rw [strip_slashes_of_no_edge s h1 h2, collapse_slashes_of_no_double s h0]

theorem here_eq_matches (info : NodeInfo) (fp target : List Char) :
    (if truthy info.method && !fp.isEmpty && truthy info.id then
      if path_matches (normalize_path fp) (normalize_path target) then
        [(⟨info.id.getD [], fp, info.method.getD [], info.name, info.groupId⟩ : MatchedNode)]
      else []
    else []) =
    if matches_target target (info, fp) then [to_matched (info, fp)] else [] := by
  cases h1 : (truthy info.method && !fp.isEmpty && truthy info.id) with
  | false => simp [matches_target, h1]
  | true =>
    cases h2 : path_matches (normalize_path fp) (normalize_path target) with
    | false => simp [matches_target, h1, h2]
    | true => simp [matches_target, to_matched, h1, h2]

mutual

theorem find_api_by_path_eq_filter (t : ApiNode) (target parent : List Char) :
    find_api_by_path t target parent =
      ((all_nodes t parent).filter (matches_target target)).map to_matched := by
  match t with
  | .mk info children =>
    rw [find_api_by_path, all_nodes]
    rw [find_api_by_path_list_eq_filter children target
      (clean_path (join_path parent info.path))]
    rw [here_eq_matches info (clean_path (join_path parent info.path)) target]
    by_cases h : matches_target target (info, clean_path (join_path parent info.path)) = true
    · simp [h]
    · simp [h]

theorem find_api_by_path_list_eq_filter (ts : List ApiNode) (target parent : List Char) :
    find_api_by_path_list ts target parent =
      ((all_nodes_list ts parent).filter (matches_target target)).map to_matched := by
  match ts with
  | [] => rw [find_api_by_path_list, all_nodes_list]; rfl
  | c :: cs =>
    rw [find_api_by_path_list, all_nodes_list, List.filter_append, List.map_append,
      find_api_by_path_eq_filter c target parent,
      find_api_by_path_list_eq_filter cs target parent]

end

theorem normalize_path_cons_slash (p : List Char) :
    normalize_path ('/' :: p) = normalize_path p := by
  cases p with
  | nil =>
    show normalize_path ['/'] = normalize_path []
    rw [normalize_path, normalize_path]
    norm_num
    rw [show strip_slashes ['/'] = [] from rfl]
    rw [collapse_slashes_of_no_double [] rfl]
  | cons a t =>
    have hs : strip_slashes ('/' :: a :: t) = strip_slashes (a :: t) := by
      unfold strip_slashes
      rw [List.dropWhile_cons_of_pos (by simp [isSlash])]
    rw [normalize_path, normalize_path, hs]
    norm_num

theorem matches_target_congr (t1 t2 : List Char)
    (h : normalize_path t1 = normalize_path t2) :
    matches_target t1 = matches_target t2 := by
  funext e
  rw [matches_target, matches_target, h]

/-- C2: path normalization is idempotent — for every input string `p`,
`normalize_path (normalize_path p) = normalize_path p`, where the
normalization strips leading and trailing `/` and collapses every run of
consecutive `/` into a single `/`. -/
theorem normalize_path_idempotent (p : List Char) :
    normalize_path (normalize_path p) = normalize_path p :=
  normalize_path_of_normal _ (normalize_path_no_double p)
    (normalize_path_head? p) (normalize_path_getLast? p)

/-- C9: the two path-normalization functions of `extract_api_paths.py`
are extensionally equal — for every input string `p`,
`clean_path p = normalize_path p` (their bodies are identical). -/
theorem clean_path_eq_normalize_path (p : List Char) :
    clean_path p = normalize_path p := rfl

/-- C5: a leading slash on the target path is irrelevant — for every
resource tree, parent path and target, `find_api_by_path` returns the
identical match sequence for `'/' :: target` and for `target`. -/
theorem find_api_by_path_leading_slash (t : ApiNode) (target parent : List Char) :
    find_api_by_path t ('/' :: target) parent = find_api_by_path t target parent := by
  rw [find_api_by_path_eq_filter, find_api_by_path_eq_filter,
    matches_target_congr ('/' :: target) target (normalize_path_cons_slash target)]

/-- A root node with an empty `path` segment that nevertheless carries a
method and an id: its computed full path is the empty string. -/
def c1_cex_info : NodeInfo :=
  ⟨[], "n".toList, some "GET".toList, some "x".toList, none⟩

/-- The one-node tree built from `c1_cex_info`. -/
def c1_cex_node : ApiNode := .mk c1_cex_info []

/-- C1 (counterexample): the claim says `find_api_by_path` returns every
node that has both a method and an id and whose normalized full path
equals the normalized target.  This node has a method and an id, and its
normalized full path equals the normalized target (both are the empty
string), yet `find_api_by_path` returns nothing: the code additionally
requires the computed full path to be non-empty (`if method and full_path
and api_id`). -/
theorem find_api_by_path_c1_counterexample :
    c1_cex_info.method ≠ none ∧ c1_cex_info.id ≠ none ∧
    normalize_path (clean_path (join_path [] c1_cex_info.path)) = normalize_path [] ∧
    find_api_by_path c1_cex_node [] [] = [] := by
  refine ⟨by simp [c1_cex_info], by simp [c1_cex_info], rfl, ?_⟩
  rw [find_api_by_path_eq_filter]
  simp [all_nodes, all_nodes_list, c1_cex_node, c1_cex_info, matches_target,
    clean_path, join_path]

/-- C1 (amended): for every resource tree, parent path and target path,
`find_api_by_path` returns exactly those nodes — in pre-order, children
in delivery order — that have a truthy (present and non-empty) `method`,
a truthy `id` and a non-empty computed full path, and whose normalized
full path either equals the normalized target, or starts with the
normalized target followed by `/`, or followed by `/` is a prefix of the
normalized target; nodes lacking any of these are never returned. -/
theorem find_api_by_path_exact_matches (t : ApiNode) (target parent : List Char) :
    find_api_by_path t target parent =
      ((all_nodes t parent).filter (matches_target target)).map to_matched :=
  find_api_by_path_eq_filter t target parent

/-- C6: when no node of the tree passes the endpoint-and-match test, both
`find_api_by_path` and `find_api_id_by_path` return the empty list — a
normal value, not an error (the functions are total). -/
theorem find_api_by_path_no_match_empty (t : ApiNode) (target : List Char)
    (h : ∀ e ∈ all_nodes t [], matches_target target e = false) :
    find_api_by_path t target [] = [] ∧ find_api_id_by_path [t] target = [] := by
  have h1 : find_api_by_path t target [] = [] := by
    rw [find_api_by_path_eq_filter]
    rw [List.filter_eq_nil_iff.mpr (fun a ha => by simp [h a ha])]
    rfl
  refine ⟨h1, ?_⟩
  rw [find_api_id_by_path, find_api_by_path_list, find_api_by_path_list, h1]
  rfl

/-- A small concrete tree: group `db` containing endpoint `db/module`. -/
def c6_tree : ApiNode :=
  .mk ⟨"db".toList, "db".toList, none, none, none⟩
    [.mk ⟨"module".toList, "模块".toList, some "GET".toList, some "id1".toList, none⟩ []]

/-- C6 (witness): on the concrete tree `c6_tree`, the target
`nonexistent/path` matches no node, and both lookup functions return the
empty list. -/
theorem find_api_by_path_no_match_empty_witness :
    (∀ e ∈ all_nodes c6_tree [], matches_target "nonexistent/path".toList e = false) ∧
    (find_api_by_path c6_tree "nonexistent/path".toList [] = [] ∧
      find_api_id_by_path [c6_tree] "nonexistent/path".toList = []) := by
  have hyp : ∀ e ∈ all_nodes c6_tree [], matches_target "nonexistent/path".toList e = false := by
    simp only [c6_tree, all_nodes, all_nodes_list, List.append_nil, List.mem_cons,
      List.mem_singleton, List.not_mem_nil, or_false]
    intro e he
    rcases he with h | h <;> subst h <;>
      simp [matches_target, truthy, path_matches, clean_path, join_path, normalize_path,
        strip_slashes, collapse_slashes, has_double_slash, replace_double_slash, isSlash]
    all_goals decide
  exact ⟨hyp, find_api_by_path_no_match_empty c6_tree _ hyp⟩

theorem str_le_total (a b : List Char) : (str_le a b || str_le b a) = true := by
  induction a generalizing b with
  | nil => simp [str_le]
  | cons x xs ih =>
    cases b with
    | nil => simp [str_le]
    | cons y ys =>
      by_cases h1 : x < y
      · simp [str_le, h1]
      · by_cases h2 : y < x
        · simp [str_le, h1, h2]
        · simpa [str_le, h1, h2] using ih ys

theorem str_le_trans (a b c : List Char) (h1 : str_le a b = true)
    (h2 : str_le b c = true) : str_le a c = true := by
  induction a generalizing b c with
  | nil => simp [str_le]
  | cons x xs ih =>
    cases b with
    | nil => simp [str_le] at h1
    | cons y ys =>
      cases c with
      | nil => simp [str_le] at h2
      | cons z zs =>
        simp only [str_le] at h1 h2 ⊢
        by_cases hxy : x < y
        · by_cases hyz : y < z
          · simp [lt_trans hxy hyz]
          · by_cases hzy : z < y
            · simp [hyz, hzy] at h2
            · have hyzeq : y = z := le_antisymm (not_lt.mp hzy) (not_lt.mp hyz)
              subst hyzeq
              simp [hxy]
        · by_cases hyx : y < x
          · simp [hxy, hyx] at h1
          · have hxyeq : x = y := le_antisymm (not_lt.mp hyx) (not_lt.mp hxy)
            subst hxyeq
            simp only [lt_irrefl, if_false] at h1
            by_cases hxz : x < z
            · simp [hxz]
            · by_cases hzx : z < x
              · simp [hxz, hzx] at h2
              · simp only [hzx, if_false, hxz] at h2
                simp only [hxz, hzx, if_false]
                exact ih ys zs h1 h2

/-- C4 (amended): `extract_api_endpoints` yields exactly the endpoint
strings produced by the pre-order depth-first traversal
(`traverse_api_tree` over the children in delivery order) — but sorted
ascending by Python string comparison, because the code applies
`sorted(...)` to the traversal's result, rather than leaving them in
traversal order. -/
theorem extract_api_endpoints_sorted_traversal (api_children : List ApiNode) :
    (extract_api_endpoints api_children).Perm (traverse_api_tree_list api_children []) ∧
    (extract_api_endpoints api_children).Pairwise (fun a b => str_le a b = true) := by
  constructor
  · exact List.mergeSort_perm _ _
  · exact List.sorted_mergeSort (fun a b c => str_le_trans a b c) str_le_total _

/-- Two sibling endpoint nodes delivered in the order `b`, `a`. -/
def c4_children : List ApiNode :=
  [.mk ⟨"b".toList, "b".toList, some "GET".toList, some "i1".toList, none⟩ [],
   .mk ⟨"a".toList, "a".toList, some "GET".toList, some "i2".toList, none⟩ []]

/-- C4 (counterexample): the claim says the list-all operation yields the
endpoints in the pre-order traversal order; on `c4_children` the
traversal yields `GET b` before `GET a`, but `extract_api_endpoints`
sorts its output, so its sequence differs from the traversal's. -/
theorem extract_api_endpoints_c4_counterexample :
    extract_api_endpoints c4_children ≠ traverse_api_tree_list c4_children [] := by
  have h1 : traverse_api_tree_list c4_children [] =
      ["GET b".toList, "GET a".toList] := by
    simp [c4_children, traverse_api_tree_list, traverse_api_tree, truthy, clean_path,
      join_path, collapse_slashes, strip_slashes, has_double_slash,
      replace_double_slash, isSlash]
  have h2 : extract_api_endpoints c4_children =
      ["GET a".toList, "GET b".toList] := by
    rw [extract_api_endpoints, h1]
    simp [List.mergeSort, str_le]
  rw [h1, h2]
  decide

/-- C3: for every item list and every `page ≥ 1`, `page_size ≥ 1`:
the computed `total_pages` is the ceiling of `count / page_size`
(characterized by `count ≤ total_pages * page_size < count + page_size`),
the reported total count is the length of the list, and a page beyond
`total_pages` yields the empty window (together with the same computed
totals) rather than an error. -/
theorem paginate_items_spec {α : Type} (items : List α) (page page_size : Nat)
    (hp : 1 ≤ page) (hs : 1 ≤ page_size) :
    items.length ≤ py_total_pages items.length page_size * page_size ∧
    py_total_pages items.length page_size * page_size < items.length + page_size ∧
    (paginate_items items page page_size).2.1 = py_total_pages items.length page_size ∧
    (paginate_items items page page_size).2.2 = items.length ∧
    (py_total_pages items.length page_size < page →
      (paginate_items items page page_size).1 = []) := by
  have key : items.length ≤ py_total_pages items.length page_size * page_size ∧
      py_total_pages items.length page_size * page_size < items.length + page_size := by
    unfold py_total_pages
    have hq := Nat.div_add_mod (items.length + page_size - 1) page_size
    have hr : (items.length + page_size - 1) % page_size < page_size :=
      Nat.mod_lt _ (by omega)
    generalize hQ : (items.length + page_size - 1) / page_size = q at hq ⊢
    generalize hR : (items.length + page_size - 1) % page_size = r at hq hr
    have hcomm : q * page_size = page_size * q := Nat.mul_comm _ _
    generalize hM : page_size * q = M at hq hcomm
    rw [hcomm]
    omega
  refine ⟨key.1, key.2, ?_, ?_, ?_⟩
  · simp only [paginate_items]
    split <;> rfl
  · simp only [paginate_items]
    split <;> rfl
  · intro h
    simp only [paginate_items]
    rw [if_pos h]

/-- C3 (witness): 25 items with page size 10 give 3 total pages; page 4
is beyond them and yields the empty window with the computed totals. -/
theorem paginate_items_spec_witness :
    (1 ≤ 4 ∧ 1 ≤ 10) ∧
    paginate_items (List.range 25) 4 10 = ([], 3, 25) ∧
    ((List.range 25).length ≤ py_total_pages (List.range 25).length 10 * 10 ∧
      py_total_pages (List.range 25).length 10 * 10 < (List.range 25).length + 10 ∧
      (paginate_items (List.range 25) 4 10).2.1 = py_total_pages (List.range 25).length 10 ∧
      (paginate_items (List.range 25) 4 10).2.2 = (List.range 25).length ∧
      (py_total_pages (List.range 25).length 10 < 4 →
        (paginate_items (List.range 25) 4 10).1 = [])) :=
  ⟨⟨by decide, by decide⟩, by decide,
    paginate_items_spec (List.range 25) 4 10 (by decide) (by decide)⟩

/-- The pattern supplied for the given filter field failed to compile. -/
def malformed_field {ρ : Type} (compile : List Char → Option ρ)
    (qf pf nf : Option (List Char)) : FilterField → Prop
  | FilterField.query => ∃ q, qf = some q ∧ compile q = none
  | FilterField.path => ∃ p, pf = some p ∧ compile p = none
  | FilterField.name => ∃ n, nf = some n ∧ compile n = none

theorem name_stage_malformed {ρ : Type} (compile : List Char → Option ρ)
    (search : ρ → List Char → Bool) (nf : Option (List Char))
    (f : List (List Char)) (h : ∃ n, nf = some n ∧ compile n = none) :
    name_filter_stage compile search nf f = ([], some FilterField.name) := by
  obtain ⟨n, rfl, hc⟩ := h
  simp [name_filter_stage, hc]

theorem path_stage_malformed {ρ : Type} (compile : List Char → Option ρ)
    (search : ρ → List Char → Bool) (pf nf : Option (List Char))
    (f : List (List Char))
    (h : (∃ p, pf = some p ∧ compile p = none) ∨
         (∃ n, nf = some n ∧ compile n = none)) :
    ∃ fld, path_filter_stage compile search pf nf f = ([], some fld) ∧
      malformed_field compile none pf nf fld := by
  cases pf with
  | none =>
    rcases h with ⟨p, hp, _⟩ | hn
    · cases hp
    · exact ⟨FilterField.name,
        by simp [path_filter_stage, name_stage_malformed compile search nf f hn], hn⟩
  | some p =>
    cases hcp : compile p with
    | none => exact ⟨FilterField.path, by simp [path_filter_stage, hcp], ⟨p, rfl, hcp⟩⟩
    | some pp =>
      have hn : ∃ n, nf = some n ∧ compile n = none := by
        rcases h with ⟨p', hp', hcp'⟩ | hn
        · cases Option.some.inj hp'
          rw [hcp] at hcp'
          cases hcp'
        · exact hn
      refine ⟨FilterField.name, ?_, hn⟩
      simp [path_filter_stage, hcp, name_stage_malformed compile search nf _ hn]

theorem query_stage_malformed {ρ : Type} (compile : List Char → Option ρ)
    (search : ρ → List Char → Bool) (qf pf nf : Option (List Char))
    (f : List (List Char))
    (h : (∃ q, qf = some q ∧ compile q = none) ∨
         (∃ p, pf = some p ∧ compile p = none) ∨
         (∃ n, nf = some n ∧ compile n = none)) :
    ∃ fld, query_filter_stage compile search qf pf nf f = ([], some fld) ∧
      malformed_field compile qf pf nf fld := by
  cases qf with
  | none =>
    rcases h with ⟨q, hq, _⟩ | h2
    · cases hq
    · obtain ⟨fld, heq, hm⟩ := path_stage_malformed compile search pf nf f h2
      refine ⟨fld, by simp [query_filter_stage, heq], ?_⟩
      cases fld with
      | query => obtain ⟨q', hq', _⟩ := hm; cases hq'
      | path => exact hm
      | name => exact hm
  | some q =>
    cases hcq : compile q with
    | none => exact ⟨FilterField.query, by simp [query_filter_stage, hcq], ⟨q, rfl, hcq⟩⟩
    | some qp =>
      have h2 : (∃ p, pf = some p ∧ compile p = none) ∨
          (∃ n, nf = some n ∧ compile n = none) := by
        rcases h with ⟨q', hq', hcq'⟩ | h2 | h3
        · cases Option.some.inj hq'
          rw [hcq] at hcq'
          cases hcq'
        · exact Or.inl h2
        · exact Or.inr h3
      obtain ⟨fld, heq, hm⟩ := path_stage_malformed compile search pf nf
        (f.filter (fun ep =>
          search qp (after_first_space ep) || (has_brackets ep && search qp ep))) h2
      refine ⟨fld, by simp [query_filter_stage, hcq, heq], ?_⟩
      cases fld with
      | query => obtain ⟨q', hq', _⟩ := hm; cases hq'
      | path => exact hm
      | name => exact hm

/-- C7: if any supplied filter pattern (query, path or name) is
malformed, `filter_endpoints` does not crash: it rejects the whole
operation by returning the empty list, and reports a filter field whose
pattern indeed failed to compile; the input endpoint list is untouched
(the embedding is a pure function of it). -/
theorem filter_endpoints_malformed {ρ : Type} (compile : List Char → Option ρ)
    (search : ρ → List Char → Bool) (endpoints : List (List Char))
    (pf nf mf qf : Option (List Char))
    (h : (∃ q, qf = some q ∧ compile q = none) ∨
         (∃ p, pf = some p ∧ compile p = none) ∨
         (∃ n, nf = some n ∧ compile n = none)) :
    (filter_endpoints compile search endpoints pf nf mf qf).1 = [] ∧
    ∃ fld, (filter_endpoints compile search endpoints pf nf mf qf).2 = some fld ∧
      malformed_field compile qf pf nf fld := by
  obtain ⟨fld, heq, hm⟩ := query_stage_malformed compile search qf pf nf
    (match mf with
     | some m => endpoints.filter (fun ep => (py_upper m ++ [' ']).isPrefixOf ep)
     | none => endpoints) h
  simp only [filter_endpoints]
  rw [heq]
  exact ⟨rfl, fld, rfl, hm⟩

/-- The regex engine used by the C7 witness: every pattern is rejected
as malformed. -/
def c7_compile : List Char → Option Unit := fun _ => none

/-- The (never reached) compiled-pattern matcher of the C7 witness. -/
def c7_search : Unit → List Char → Bool := fun _ _ => true

/-- C7 (witness): with an engine that rejects the pattern `(`, endpoint
list `["GET a"]` and that pattern supplied as the query filter, the
filter returns the empty list and reports the query field. -/
theorem filter_endpoints_malformed_witness :
    ((∃ q, (some "(".toList : Option (List Char)) = some q ∧ c7_compile q = none) ∨
      (∃ p, (none : Option (List Char)) = some p ∧ c7_compile p = none) ∨
      (∃ n, (none : Option (List Char)) = some n ∧ c7_compile n = none)) ∧
    ((filter_endpoints c7_compile c7_search ["GET a".toList]
        none none none (some "(".toList)).1 = [] ∧
      ∃ fld, (filter_endpoints c7_compile c7_search ["GET a".toList]
          none none none (some "(".toList)).2 = some fld ∧
        malformed_field c7_compile (some "(".toList) none none fld) :=
  ⟨Or.inl ⟨"(".toList, rfl, rfl⟩,
    filter_endpoints_malformed c7_compile c7_search ["GET a".toList]
      none none none (some "(".toList) (Or.inl ⟨"(".toList, rfl, rfl⟩)⟩

/-- C10: response handling of `MagicAPISearchClient.search` and
`search_todo`: once a request is actually issued (for `search` this
requires a keyword that is non-blank after `strip()`), an envelope with
`code == 1` and data `D` yields the first `limit` elements of `D` when
`limit > 0` and exactly `D` when `limit ≤ 0`; an envelope whose code is
not `1`, or a transport exception, yields the empty list. -/
theorem search_response_spec {α : Type} (keyword : List Char) (limit : Int)
    (code : Option Int) (data : List α)
    (hk : py_strip keyword ≠ []) :
    (0 < limit → search keyword limit (Transport.ok (some 1) data) = data.take limit.toNat) ∧
    (limit ≤ 0 → search keyword limit (Transport.ok (some 1) data) = data) ∧
    (code ≠ some 1 → search keyword limit (Transport.ok code data) = []) ∧
    search keyword limit (Transport.exc : Transport α) = [] ∧
    (0 < limit → search_todo limit (Transport.ok (some 1) data) = data.take limit.toNat) ∧
    (limit ≤ 0 → search_todo limit (Transport.ok (some 1) data) = data) ∧
    (code ≠ some 1 → search_todo limit (Transport.ok code data) = []) ∧
    search_todo limit (Transport.exc : Transport α) = [] := by
  have hk' : (py_strip keyword).isEmpty = false := by
    simpa [List.isEmpty_iff] using hk
  refine ⟨?_, ?_, ?_, ?_, ?_, ?_, ?_, ?_⟩
  · intro h
    simp [search, hk', h]
  · intro h
    have h2 : ¬ (0 : Int) < limit := by omega
    simp [search, hk', h2]
  · intro h
    simp [search, hk', h]
  · simp [search, hk']
  · intro h
    simp [search_todo, h]
  · intro h
    have h2 : ¬ (0 : Int) < limit := by omega
    simp [search_todo, h2]
  · intro h
    simp [search_todo, h]
  · simp [search_todo]

/-- C10 (witness): keyword `abc`, limit `2`, alternative code `0` and
data `[1, 2, 3]` instantiate every clause of the response-handling
specification. -/
theorem search_response_spec_witness :
    py_strip "abc".toList ≠ [] ∧
    ((0 < (2 : Int) → search "abc".toList 2 (Transport.ok (some 1) [1, 2, 3]) =
        [1, 2, 3].take (2 : Int).toNat) ∧
      ((2 : Int) ≤ 0 → search "abc".toList 2 (Transport.ok (some 1) [1, 2, 3]) = [1, 2, 3]) ∧
      (some (0 : Int) ≠ some 1 → search "abc".toList 2 (Transport.ok (some 0) [1, 2, 3]) = []) ∧
      search "abc".toList 2 (Transport.exc : Transport Nat) = [] ∧
      (0 < (2 : Int) → search_todo 2 (Transport.ok (some 1) [1, 2, 3]) =
        [1, 2, 3].take (2 : Int).toNat) ∧
      ((2 : Int) ≤ 0 → search_todo 2 (Transport.ok (some 1) [1, 2, 3]) = [1, 2, 3]) ∧
      (some (0 : Int) ≠ some 1 → search_todo 2 (Transport.ok (some 0) [1, 2, 3]) = []) ∧
      search_todo 2 (Transport.exc : Transport Nat) = []) :=
  ⟨by decide, search_response_spec "abc".toList 2 (some 0) [1, 2, 3] (by decide)⟩
